import Mathlib

/-!
Verification of the HawkEye RealtimeDashboard event-relay and
windowed-analytics pipeline.

The development shallowly embeds the two components the specification
covers:

* the consumer-side windowed analytics engine of
  `RealtimeDashboard/frontend/src/components/LogStream.jsx`
  (window ingestion, `stats`, `endpoints`, `threatLevel`), and
* the server-side stream relay of
  `RealtimeDashboard/Apps/express/index.js`
  (the `GET /logs/cloudfront` handler and its stream callbacks).

JavaScript numbers are modelled as exact rationals; `Math.round` and
`Number.prototype.toFixed` are modelled by their exact-rational rounding
rules.  In the rationals, division by zero yields `0`, which matches the
zero-valued aggregates the component returns on an empty window.
-/

/-- One structured telemetry event as decoded from the wire
(`endpoint`, `status_code`, `latency_ms`, `timestamp` fields used by
`LogStream.jsx`). -/
structure LogEvent where
  endpoint : String
  status_code : Int
  latency_ms : ℚ
  timestamp : String
deriving DecidableEq

/-- Window capacity of the analytics engine: `prevLogs.slice(-99)` keeps
the 99 most recent events before the new one is appended, so at most 100
events are retained. -/
def windowCapacity : ℕ := 100

/-- Embeds the ingestion step of `LogStream.jsx` line 63:
`setLogs((prevLogs) => [...prevLogs.slice(-99), newLog])`.
JavaScript `slice(-99)` returns the last `min(99, length)` elements,
i.e. it drops the first `length - 99` (truncated at zero) elements. -/
def ingest (prevLogs : List LogEvent) (newLog : LogEvent) : List LogEvent :=
  prevLogs.drop (prevLogs.length - 99) ++ [newLog]

/-- The window contents after ingesting a whole sequence of events, in
arrival order, starting from the empty window of a freshly attached
consumer. -/
def ingestAll (evs : List LogEvent) : List LogEvent :=
  evs.foldl ingest []

lemma ingestAll_append_singleton (l : List LogEvent) (e : LogEvent) :
    ingestAll (l ++ [e]) = ingest (ingestAll l) e := by
  simp [ingestAll, List.foldl_append]

lemma ingestAll_eq_drop (evs : List LogEvent) :
    ingestAll evs = evs.drop (evs.length - windowCapacity) := by
  induction evs using List.reverseRecOn with
  | nil => simp [ingestAll]
  | append_singleton l e ih =>
      rw [ingestAll_append_singleton, ih]
      unfold ingest windowCapacity
      rw [List.length_drop, List.drop_drop]
      rw [List.drop_append_eq_append_drop]
      have h1 : l.length - 100 + (l.length - (l.length - 100) - 99)
          = (l ++ [e]).length - 100 := by
        simp only [List.length_append, List.length_singleton]
        omega
      have h2 : (l ++ [e]).length - 100 - l.length = 0 := by
        simp only [List.length_append, List.length_singleton]
        omega
      rw [h1, h2]
      simp

/-- C1: for every sequence of N ingested events with window capacity
W = 100, the window after the N-th ingestion has length `min N W` and
holds exactly the most recent `min N W` events in arrival order (the
prefix of older events having been evicted). -/
theorem window_bounded_most_recent (evs : List LogEvent) :
    (ingestAll evs).length = min evs.length windowCapacity ∧
    ingestAll evs = evs.drop (evs.length - windowCapacity) := by
  refine ⟨?_, ingestAll_eq_drop evs⟩
  rw [ingestAll_eq_drop, List.length_drop]
  omega

/-- Exact-rational model of JavaScript `Math.round`: round half towards
positive infinity, i.e. the floor of `q + 1/2`. -/
def jsRound (q : ℚ) : ℤ :=
  ⌊q + 1 / 2⌋

/-- Exact-rational model of `Number.prototype.toFixed f` for the
non-negative values produced here: the value rounded to `f` decimal
digits, ties away from zero. -/
def toFixedQ (f : ℕ) (q : ℚ) : ℚ :=
  (jsRound (q * 10 ^ f) : ℚ) / 10 ^ f

/-- Error weight used by `threatLevel` (`LogStream.jsx` line 114):
`const errorWeight = 0.6`. -/
def errorWeight : ℚ := 6 / 10

/-- Latency weight used by `threatLevel` (`LogStream.jsx` line 115):
`const latencyWeight = 0.4`. -/
def latencyWeight : ℚ := 4 / 10

/-- High-latency threshold used by `threatLevel` (`LogStream.jsx`
line 111): `log.latency_ms > 300`. -/
def latencyThreshold : ℚ := 300

/-- Raw error ratio computed inside `threatLevel` (`LogStream.jsx`
line 110):
`logs.filter(log => log.status_code >= 400).length / logs.length`.
On the empty window the rational division yields `0`. -/
def errorRate (logs : List LogEvent) : ℚ :=
  ((logs.filter fun log => 400 ≤ log.status_code).length : ℚ) / logs.length

/-- Raw high-latency ratio computed inside `threatLevel`
(`LogStream.jsx` line 111):
`logs.filter(log => log.latency_ms > 300).length / logs.length`. -/
def highLatencyRate (logs : List LogEvent) : ℚ :=
  ((logs.filter fun log => latencyThreshold < log.latency_ms).length : ℚ) / logs.length

/-- Embeds `threatLevel` (`LogStream.jsx` lines 106-119): `0` on the
empty window, otherwise
`Math.min(100, Math.round((errorRate*0.6 + highLatencyRate*0.4) * 100))`. -/
def threatLevel (logs : List LogEvent) : ℤ :=
  if logs.length = 0 then 0
  else
    min 100 (jsRound ((errorRate logs * errorWeight + highLatencyRate logs * latencyWeight) * 100))

/-- Result record of the `stats` memo (`LogStream.jsx` lines 82-93):
`avgLatency` is displayed through `toFixed(2)`, `errorRate` is the
percentage displayed through `toFixed(1)`, `requestCount` is the window
length. -/
structure StatsView where
  avgLatency : ℚ
  errorRate : ℚ
  requestCount : ℕ
deriving DecidableEq

/-- Embeds the `stats` memo (`LogStream.jsx` lines 82-93): zero-valued
record on the empty window, otherwise the mean latency rounded to two
decimals, the error percentage rounded to one decimal, and the window
length. -/
def stats (logs : List LogEvent) : StatsView :=
  if logs.length = 0 then ⟨0, 0, 0⟩
  else
    { avgLatency := toFixedQ 2 ((logs.map LogEvent.latency_ms).sum / logs.length)
      errorRate :=
        toFixedQ 1
          ((((logs.filter fun log => 400 ≤ log.status_code).length : ℚ) / logs.length) * 100)
      requestCount := logs.length }

/-- Enumerable and accessor property names inherited from
`Object.prototype` by the object literal `endpointMap = {}`: the
standard methods, the four Annex-B accessor utilities present in
browsers, and the `__proto__` accessor.  A lookup of any of these keys
on `{}` yields a truthy inherited function/object rather than
`undefined`. -/
def objectProtoKeys : List String :=
  ["constructor", "hasOwnProperty", "isPrototypeOf", "propertyIsEnumerable",
   "toLocaleString", "toString", "valueOf",
   "__defineGetter__", "__defineSetter__", "__lookupGetter__", "__lookupSetter__",
   "__proto__"]

/-- Result of a JavaScript property read `endpointMap[k]`: an own data
property holding a number (`none` models `NaN`), an inherited
`Object.prototype` member (a truthy function/object), or `undefined`. -/
inductive JsLookup where
  | own (v : Option ℚ)
  | inheritedMember
  | missing
deriving DecidableEq

/-- Property read `endpointMap[k]` on an object-literal map whose own
data properties are `m` (in creation order): an own property shadows
the prototype; otherwise the lookup walks up to `Object.prototype`. -/
def jsGet (m : List (String × Option ℚ)) (k : String) : JsLookup :=
  match m.find? fun p => p.1 = k with
  | some p => .own p.2
  | none => if k ∈ objectProtoKeys then .inheritedMember else .missing

/-- JavaScript truthiness of a property-read result, as tested by
`!endpointMap[k]`: the numbers `0` and `NaN` and the value `undefined`
are falsy; inherited functions/objects are truthy. -/
def jsTruthy : JsLookup → Bool
  | .own (some q) => q != 0
  | .own none => false
  | .inheritedMember => true
  | .missing => false

/-- `ToNumber` of a property-read result, as evaluated by
`endpointMap[k]++`: numbers pass through, and an inherited
`Object.prototype` function/object converts to `NaN` (`none`). -/
def jsToNumber : JsLookup → Option ℚ
  | .own v => v
  | .inheritedMember => none
  | .missing => none

/-- Property write `endpointMap[k] = v`.  For `k = "__proto__"` the
inherited accessor setter runs and silently ignores a non-object value,
creating no own property; otherwise the write shadows or updates,
creating a new own property at the end of creation order when absent. -/
def jsSet (m : List (String × Option ℚ)) (k : String) (v : Option ℚ) :
    List (String × Option ℚ) :=
  if k = "__proto__" then m
  else if m.any fun p => p.1 = k then
    m.map fun p => if p.1 = k then (p.1, v) else p
  else m ++ [(k, v)]

/-- One update of the endpoint-count object (`LogStream.jsx` lines
98-101): `if (!endpointMap[k]) endpointMap[k] = 0; endpointMap[k]++`,
under full JavaScript object semantics: the truthiness test sees
inherited `Object.prototype` properties, the increment applies
`ToNumber` (producing `NaN`, modelled `none`, on an inherited
function/object), and a `__proto__` write is silently dropped. -/
def bumpKey (m : List (String × Option ℚ)) (k : String) : List (String × Option ℚ) :=
  let m1 := if jsTruthy (jsGet m k) then m else jsSet m k (some 0)
  jsSet m1 k ((jsToNumber (jsGet m1 k)).map fun c => c + 1)

/-- Embeds the `endpoints` memo (`LogStream.jsx` lines 96-103): the
entry list of the accumulated `endpointMap` object, i.e. its own
enumerable properties with their values.  Entries are kept in property
creation order; `Object.entries` additionally fronts array-index keys,
a reordering none of the properties proved below depends on (they are
invariant under permutation of the entries). -/
def endpoints (logs : List LogEvent) : List (String × Option ℚ) :=
  logs.foldl (fun m log => bumpKey m log.endpoint) []

lemma ratio_nonneg (k n : ℕ) : 0 ≤ (k : ℚ) / n := by
  positivity

lemma ratio_le_one {k n : ℕ} (h : k ≤ n) : (k : ℚ) / n ≤ 1 := by
  rcases Nat.eq_zero_or_pos n with h0 | hpos
  · subst h0
    simp
  · rw [div_le_one (by exact_mod_cast hpos)]
    exact_mod_cast h

lemma errorRate_nonneg (logs : List LogEvent) : 0 ≤ errorRate logs :=
  ratio_nonneg _ _

lemma errorRate_le_one (logs : List LogEvent) : errorRate logs ≤ 1 :=
  ratio_le_one (List.length_filter_le _ _)

lemma highLatencyRate_nonneg (logs : List LogEvent) : 0 ≤ highLatencyRate logs :=
  ratio_nonneg _ _

lemma highLatencyRate_le_one (logs : List LogEvent) : highLatencyRate logs ≤ 1 :=
  ratio_le_one (List.length_filter_le _ _)

lemma jsRound_nonneg {q : ℚ} (h : 0 ≤ q) : 0 ≤ jsRound q := by
  unfold jsRound
  rw [Int.le_floor]
  push_cast
  linarith

lemma jsRound_le_100 {q : ℚ} (h : q ≤ 100) : jsRound q ≤ 100 := by
  unfold jsRound
  have : (⌊q + 1 / 2⌋ : ℤ) < 101 := by
    rw [Int.floor_lt]
    push_cast
    linarith
  omega

lemma weighted_score_le_100 (logs : List LogEvent) :
    (errorRate logs * errorWeight + highLatencyRate logs * latencyWeight) * 100 ≤ 100 := by
  have h1 := errorRate_le_one logs
  have h2 := highLatencyRate_le_one logs
  have h3 := errorRate_nonneg logs
  have h4 := highLatencyRate_nonneg logs
  unfold errorWeight latencyWeight
  nlinarith

lemma weighted_score_nonneg (logs : List LogEvent) :
    0 ≤ (errorRate logs * errorWeight + highLatencyRate logs * latencyWeight) * 100 := by
  have h3 := errorRate_nonneg logs
  have h4 := highLatencyRate_nonneg logs
  unfold errorWeight latencyWeight
  nlinarith

/-- C2: for every window contents, the error rate and the high-latency
rate lie in `[0,1]`, the threat score lies in `[0,100]`, and the threat
score equals `round(min(100, (errorRate*0.6 + highLatencyRate*0.4)*100))`
exactly as the specification writes it (the code computes
`min(100, round(...))`, which coincides because the weighted score never
exceeds 100). -/
theorem rates_bounded_and_threat_score_formula (logs : List LogEvent) :
    0 ≤ errorRate logs ∧ errorRate logs ≤ 1 ∧
    0 ≤ highLatencyRate logs ∧ highLatencyRate logs ≤ 1 ∧
    0 ≤ threatLevel logs ∧ threatLevel logs ≤ 100 ∧
    threatLevel logs =
      jsRound (min 100
        ((errorRate logs * errorWeight + highLatencyRate logs * latencyWeight) * 100)) := by
  refine ⟨errorRate_nonneg logs, errorRate_le_one logs,
    highLatencyRate_nonneg logs, highLatencyRate_le_one logs, ?_, ?_, ?_⟩
  · unfold threatLevel
    split
    · exact le_refl 0
    · exact le_min (by norm_num) (jsRound_nonneg (weighted_score_nonneg logs))
  · unfold threatLevel
    split
    · norm_num
    · exact min_le_left _ _
  · unfold threatLevel
    split
    · rename_i hlen
      have hnil : logs = [] := List.length_eq_zero.mp hlen
      subst hnil
      simp only [errorRate, highLatencyRate, List.filter_nil, List.length_nil,
        Nat.cast_zero, div_zero, zero_mul, add_zero, zero_add, mul_zero]
      norm_num [jsRound]
    · rw [min_eq_right (weighted_score_le_100 logs),
        min_eq_right (jsRound_le_100 (weighted_score_le_100 logs))]

/-- C6: the empty window (no events ingested, or a freshly attached
consumer) yields zero-valued aggregates rather than an error:
`avgLatency = 0`, `errorRate = 0`, `threatScore = 0`, and the
endpoint-count mapping is empty. -/
theorem empty_window_zero_aggregates :
    ingestAll [] = [] ∧
    stats [] = ⟨0, 0, 0⟩ ∧
    threatLevel [] = 0 ∧
    endpoints [] = [] := by
  refine ⟨rfl, ?_, rfl, rfl⟩
  rfl

/-- Fixed timestamp used by the concrete sample windows. -/
def sampleTs : String := "2024-01-01T00:00:00Z"

/-- Concrete sample event with the given status code and latency on the
endpoint `/a`. -/
def sampleEv (s : Int) (lat : ℚ) : LogEvent :=
  ⟨ "/a", s, lat, sampleTs⟩

/-- Concrete window of seven events with exactly one error
(status 500) and no high-latency event: its raw error ratio is `1/7`. -/
def sampleWindow7 : List LogEvent :=
  [sampleEv 500 50, sampleEv 200 50, sampleEv 200 50, sampleEv 200 50,
   sampleEv 200 50, sampleEv 200 50, sampleEv 200 50]

/-- C7 counterexample: on the seven-event window with one error, the raw
error ratio the engine computes and feeds into the threat score is the
exact, unrounded value `1/7`; it is not rounded to two decimals (`0.14`),
and the only other exposed form, `stats.errorRate`, is the one-decimal
percentage `14.3`, not a two-decimal raw ratio either.  So no exposed
value is `count/len` rounded to two decimals, refuting the claim's
"raw ratio with 2-decimal rounding". -/
theorem errorRate_no_two_decimal_rounding :
    errorRate sampleWindow7 = 1 / 7 ∧
    toFixedQ 2 (errorRate sampleWindow7) = 7 / 50 ∧
    errorRate sampleWindow7 ≠ toFixedQ 2 (errorRate sampleWindow7) ∧
    (stats sampleWindow7).errorRate = 143 / 10 ∧
    (stats sampleWindow7).errorRate ≠ toFixedQ 2 (errorRate sampleWindow7) := by
  have h1 : errorRate sampleWindow7 = 1 / 7 := by
    norm_num [errorRate, sampleWindow7, sampleEv, List.filter]
  have h2 : toFixedQ 2 ((1 : ℚ) / 7) = 7 / 50 := by
    norm_num [toFixedQ, jsRound]
  have h3 : (stats sampleWindow7).errorRate = 143 / 10 := by
    norm_num [stats, sampleWindow7, sampleEv, List.filter, toFixedQ, jsRound]
  refine ⟨h1, by rw [h1]; exact h2, ?_, h3, ?_⟩
  · rw [h1, h2]
    norm_num
  · rw [h3, h1, h2]
    norm_num

/-- C7 (amended): for every non-empty window the raw error ratio equals
`count(status_code >= 400) / len(window)` exactly, and it is exposed as
a percentage rounded to one decimal (`stats.errorRate`); the raw ratio
itself is used unrounded by the threat computation — no two-decimal
rounding of the raw ratio exists in the pipeline. -/
theorem errorRate_definition_and_presentation (logs : List LogEvent)
    (h : logs ≠ []) :
    errorRate logs =
      ((logs.filter fun log => 400 ≤ log.status_code).length : ℚ) / logs.length ∧
    (stats logs).errorRate = toFixedQ 1 (errorRate logs * 100) ∧
    threatLevel logs =
      min 100 (jsRound ((errorRate logs * errorWeight
        + highLatencyRate logs * latencyWeight) * 100)) := by
  have hlen : logs.length ≠ 0 := by
    simpa [List.length_eq_zero] using h
  refine ⟨rfl, ?_, ?_⟩
  · simp [stats, errorRate, hlen]
  · simp [threatLevel, hlen]

/-- C7 witness: the amended theorem applied to the concrete seven-event
window, whose raw error ratio is `1/7` and whose presented percentage is
`14.3`. -/
theorem errorRate_definition_and_presentation_witness :
    (stats sampleWindow7).errorRate = toFixedQ 1 (errorRate sampleWindow7 * 100) :=
  (errorRate_definition_and_presentation sampleWindow7 (by simp [sampleWindow7])).2.1

/-- Output of one render pass of `LogStream.jsx` that depends on the
window: the three aggregate memos (lines 82-119) together with the
demo anomaly-score series of the trend chart (lines 202-206), which is
the only window-derived value that also reads the host random source
`Math.random()`. -/
structure RenderOutput where
  statsOut : StatsView
  endpointsOut : List (String × Option ℚ)
  threatLevelOut : ℤ
  anomalyScores : List ℚ
deriving DecidableEq

/-- Embeds one render pass over the current window.  The host random
source `Math.random()` is modelled as a stream `rand` of rationals
indexed by call position; the anomaly-score series (line 204,
`Math.random() * 0.7 + (log.status_code >= 400 ? 0.3 : 0)`) consumes it,
while the three aggregate memos are computed from the window alone. -/
def render (rand : ℕ → ℚ) (logs : List LogEvent) : RenderOutput :=
  { statsOut := stats logs
    endpointsOut := endpoints logs
    threatLevelOut := threatLevel logs
    anomalyScores :=
      logs.enum.map fun p =>
        rand p.1 * (7 / 10) + if 400 ≤ p.2.status_code then 3 / 10 else 0 }

/-- C9: the aggregate computations are deterministic pure functions of
the window contents: under any two states of the hidden random source,
a render pass over the same event sequence produces identical `stats`,
`endpoints`, and `threatLevel` values — only the decorative anomaly
scores may differ. -/
theorem aggregates_independent_of_random_source
    (rand₁ rand₂ : ℕ → ℚ) (logs : List LogEvent) :
    (render rand₁ logs).statsOut = (render rand₂ logs).statsOut ∧
    (render rand₁ logs).endpointsOut = (render rand₂ logs).endpointsOut ∧
    (render rand₁ logs).threatLevelOut = (render rand₂ logs).threatLevelOut :=
  ⟨rfl, rfl, rfl⟩

/-- Invariant of the endpoint-count accumulation over windows whose
endpoints avoid the inherited `Object.prototype` property names:
relative to the list of endpoint strings already processed, the own
properties have no duplicate keys, every value is a number of at least
one, the values sum to the number of processed events, every key occurs
among the processed endpoints, and every processed endpoint occurs
among the keys. -/
def EndpointInv (m : List (String × Option ℚ)) (seen : List String) : Prop :=
  (m.map Prod.fst).Nodup ∧
  (∀ q ∈ m, ∃ c : ℚ, q.2 = some c ∧ 1 ≤ c) ∧
  ((m.map fun q => q.2.getD 0).sum = (seen.length : ℚ)) ∧
  (∀ q ∈ m, q.1 ∈ seen) ∧
  (∀ k ∈ seen, k ∈ m.map Prod.fst)

lemma any_key_iff (m : List (String × Option ℚ)) (k : String) :
    (m.any fun p => p.1 = k) = true ↔ k ∈ m.map Prod.fst := by
  simp only [List.any_eq_true, decide_eq_true_eq, List.mem_map]

lemma find?_key_none_iff {m : List (String × Option ℚ)} {k : String} :
    (m.find? fun p => p.1 = k) = none ↔ k ∉ m.map Prod.fst := by
  rw [List.find?_eq_none]
  constructor
  · intro h hk
    obtain ⟨p, hp, hpk⟩ := List.mem_map.mp hk
    exact h p hp (by simp [hpk])
  · intro h p hp
    simp only [decide_eq_true_eq]
    intro hpk
    exact h (hpk ▸ List.mem_map_of_mem Prod.fst hp)

lemma keys_setval (m : List (String × Option ℚ)) (k : String) (v : Option ℚ) :
    ((m.map fun p => if p.1 = k then (p.1, v) else p).map Prod.fst)
      = m.map Prod.fst := by
  rw [List.map_map]
  have hfun : (Prod.fst ∘ fun p : String × Option ℚ => if p.1 = k then (p.1, v) else p)
      = Prod.fst := by
    funext p
    by_cases hp : p.1 = k <;> simp [hp]
  rw [hfun]

lemma map_setval_of_no_key {rest : List (String × Option ℚ)} {k : String}
    {v : Option ℚ} (h : ∀ q ∈ rest, q.1 ≠ k) :
    (rest.map fun p => if p.1 = k then (p.1, v) else p) = rest := by
  induction rest with
  | nil => rfl
  | cons q rs ih =>
      simp only [List.map_cons]
      rw [if_neg (h q (List.mem_cons_self q rs)),
        ih fun r hr => h r (List.mem_cons_of_mem q hr)]

lemma sum_setval_present {m : List (String × Option ℚ)} {k : String}
    {p0 : String × Option ℚ} {v : Option ℚ}
    (hn : (m.map Prod.fst).Nodup) (hmem : p0 ∈ m) (hp0k : p0.1 = k) :
    ((m.map fun p => if p.1 = k then (p.1, v) else p).map fun q => q.2.getD 0).sum
      = (m.map fun q => q.2.getD 0).sum - p0.2.getD 0 + v.getD 0 := by
  induction m with
  | nil => simp at hmem
  | cons p rest ih =>
      simp only [List.map_cons, List.nodup_cons, List.mem_cons] at hn hmem
      rcases hmem with rfl | hmem'
      · have hnone : ∀ q ∈ rest, q.1 ≠ k := by
          intro q hq hqk
          apply hn.1
          rw [hp0k, ← hqk]
          exact List.mem_map_of_mem Prod.fst hq
        simp only [List.map_cons, if_pos hp0k, map_setval_of_no_key hnone,
          List.sum_cons]
        ring
      · have hp1 : ¬ p.1 = k := by
          intro hpk
          apply hn.1
          rw [hpk, ← hp0k]
          exact List.mem_map_of_mem Prod.fst hmem'
        simp only [List.map_cons, if_neg hp1, List.sum_cons, ih hn.2 hmem']
        ring

lemma find?_append_of_none {α : Type} {p : α → Bool} {l₁ l₂ : List α}
    (h : ∀ a ∈ l₁, ¬ p a = true) : (l₁ ++ l₂).find? p = l₂.find? p := by
  induction l₁ with
  | nil => rfl
  | cons a rest ih =>
      rw [List.cons_append, List.find?_cons_of_neg _ (h a (List.mem_cons_self a rest))]
      exact ih fun b hb => h b (List.mem_cons_of_mem a hb)

lemma jsSet_update {m : List (String × Option ℚ)} {k : String} (v : Option ℚ)
    (hk : k ≠ "__proto__") (hmem : k ∈ m.map Prod.fst) :
    jsSet m k v = m.map fun p => if p.1 = k then (p.1, v) else p := by
  unfold jsSet
  rw [if_neg hk, if_pos ((any_key_iff m k).mpr hmem)]

lemma jsSet_append {m : List (String × Option ℚ)} {k : String} (v : Option ℚ)
    (hk : k ≠ "__proto__") (hmem : k ∉ m.map Prod.fst) :
    jsSet m k v = m ++ [(k, v)] := by
  unfold jsSet
  rw [if_neg hk, if_neg fun h => hmem ((any_key_iff m k).mp h)]

lemma bumpKey_inv {m : List (String × Option ℚ)} {seen : List String} {k : String}
    (hk : k ∉ objectProtoKeys) (h : EndpointInv m seen) :
    EndpointInv (bumpKey m k) (seen ++ [k]) := by
  obtain ⟨hn, h1, hs, hm, hc⟩ := h
  have hkp : k ≠ "__proto__" := by
    intro h0
    apply hk
    rw [h0]
    simp [objectProtoKeys]
  cases hfind : m.find? fun p => p.1 = k with
  | some p0 =>
      have hp0mem : p0 ∈ m := List.mem_of_find?_eq_some hfind
      have hp0k : p0.1 = k := by simpa using List.find?_some hfind
      obtain ⟨c, hcv, hc1⟩ := h1 p0 hp0mem
      have hkmem : k ∈ m.map Prod.fst := hp0k ▸ List.mem_map_of_mem Prod.fst hp0mem
      have hget : jsGet m k = JsLookup.own (some c) := by
        unfold jsGet
        rw [hfind]
        simp [hcv]
      have hcne : c ≠ 0 := by
        intro h0
        rw [h0] at hc1
        norm_num at hc1
      have htr : jsTruthy (jsGet m k) = true := by
        rw [hget]
        simp [jsTruthy, hcne]
      have hbump : bumpKey m k
          = m.map fun p => if p.1 = k then (p.1, some (c + 1)) else p := by
        simp only [bumpKey]
        rw [if_pos htr, hget]
        simp only [jsToNumber, Option.map_some']
        rw [jsSet_update (some (c + 1)) hkp hkmem]
      rw [hbump]
      refine ⟨?_, ?_, ?_, ?_, ?_⟩
      · rw [keys_setval]
        exact hn
      · intro q hq
        obtain ⟨p, hp, rfl⟩ := List.mem_map.mp hq
        by_cases hpk : p.1 = k
        · exact ⟨c + 1, by simp [hpk], by linarith⟩
        · simp only [if_neg hpk]
          exact h1 p hp
      · rw [sum_setval_present hn hp0mem hp0k, hcv, hs]
        simp only [Option.getD_some, List.length_append, List.length_singleton]
        push_cast
        ring
      · intro q hq
        obtain ⟨p, hp, rfl⟩ := List.mem_map.mp hq
        have hfst : (if p.1 = k then (p.1, some (c + 1)) else p).1 = p.1 := by
          by_cases hpk : p.1 = k <;> simp [hpk]
        rw [hfst]
        exact List.mem_append_left _ (hm p hp)
      · intro x hx
        rw [keys_setval]
        rcases List.mem_append.mp hx with h0 | h0
        · exact hc x h0
        · rw [List.mem_singleton.mp h0]
          exact hkmem
  | none =>
      have hkm : k ∉ m.map Prod.fst := find?_key_none_iff.mp hfind
      have hget : jsGet m k = JsLookup.missing := by
        unfold jsGet
        rw [hfind]
        simp [hk]
      have hnok : ∀ p ∈ m, ¬ ((fun p : String × Option ℚ => decide (p.1 = k)) p = true) := by
        intro p hp hpk
        rw [decide_eq_true_eq] at hpk
        apply hkm
        rw [← hpk]
        exact List.mem_map_of_mem Prod.fst hp
      have hget1 : jsGet (m ++ [(k, some 0)]) k = JsLookup.own (some 0) := by
        unfold jsGet
        rw [find?_append_of_none hnok, List.find?_cons_of_pos _ (by simp)]
      have htr0 : jsTruthy (jsGet m k) = false := by
        rw [hget]
        rfl
      have hnk : ∀ q ∈ m, q.1 ≠ k := by
        intro q hq hqk
        apply hkm
        rw [← hqk]
        exact List.mem_map_of_mem Prod.fst hq
      have hbump : bumpKey m k = m ++ [(k, some (0 + 1))] := by
        simp only [bumpKey]
        rw [if_neg (by simp [htr0]), jsSet_append (some 0) hkp hkm, hget1]
        simp only [jsToNumber, Option.map_some']
        rw [jsSet_update (some (0 + 1)) hkp (by simp)]
        rw [List.map_append, map_setval_of_no_key hnk]
        simp
      rw [hbump]
      refine ⟨?_, ?_, ?_, ?_, ?_⟩
      · rw [List.map_append]
        simp only [List.map_cons, List.map_nil]
        rw [List.nodup_append]
        refine ⟨hn, List.nodup_singleton k, ?_⟩
        intro a ha hb
        rw [List.mem_singleton.mp hb] at ha
        exact hkm ha
      · intro q hq
        rcases List.mem_append.mp hq with h0 | h0
        · exact h1 q h0
        · rw [List.mem_singleton.mp h0]
          exact ⟨0 + 1, rfl, by norm_num⟩
      · rw [List.map_append]
        simp only [List.map_cons, List.map_nil, List.sum_append, List.sum_cons,
          List.sum_nil, Option.getD_some, List.length_append, List.length_singleton, hs]
        push_cast
        ring
      · intro q hq
        rcases List.mem_append.mp hq with h0 | h0
        · exact List.mem_append_left _ (hm q h0)
        · rw [List.mem_singleton.mp h0]
          exact List.mem_append_right _ (List.mem_singleton_self k)
      · intro x hx
        rw [List.map_append]
        rcases List.mem_append.mp hx with h0 | h0
        · exact List.mem_append_left _ (hc x h0)
        · exact List.mem_append_right _ (by simpa using h0)

lemma endpoints_foldl_inv (logs : List LogEvent) :
    ∀ (m : List (String × Option ℚ)) (seen : List String),
      (∀ e ∈ logs, e.endpoint ∉ objectProtoKeys) → EndpointInv m seen →
      EndpointInv (logs.foldl (fun m log => bumpKey m log.endpoint) m)
        (seen ++ logs.map LogEvent.endpoint) := by
  induction logs with
  | nil =>
      intro m seen _ h
      simpa using h
  | cons e rest ih =>
      intro m seen hsafe h
      simp only [List.foldl_cons, List.map_cons]
      have hstep := ih (bumpKey m e.endpoint) (seen ++ [e.endpoint])
        (fun x hx => hsafe x (List.mem_cons_of_mem e hx))
        (bumpKey_inv (hsafe e (List.mem_cons_self e rest)) h)
      simpa [List.append_assoc] using hstep

lemma endpoints_inv (logs : List LogEvent)
    (hsafe : ∀ e ∈ logs, e.endpoint ∉ objectProtoKeys) :
    EndpointInv (endpoints logs) (logs.map LogEvent.endpoint) := by
  have h := endpoints_foldl_inv logs [] [] hsafe
    ⟨List.nodup_nil, by simp, by simp, by simp, by simp⟩
  simpa [endpoints] using h

/-- Concrete sample event on an arbitrary endpoint path. -/
def sampleEvAt (ep : String) : LogEvent :=
  ⟨ep, 200, 50, sampleTs⟩

/-- The `Object.prototype` method name used as an endpoint by the
counterexample. -/
def protoToString : String := "toString"

/-- The `Object.prototype` accessor name used as an endpoint by the
counterexample. -/
def protoProto : String := "__proto__"

/-- C10 counterexample: the claim fails on windows whose endpoint is an
inherited `Object.prototype` property name.  For the one-event window on
`toString`, the inherited method is truthy, so the init is skipped and
the increment stores `ToNumber(function) + 1 = NaN` (modelled `none`) —
the mapping is `[("toString", NaN)]`, not the count `1` the claim
requires (so the counts also cannot sum to the window length).  For the
one-event window on `__proto__`, every write is swallowed by the
inherited accessor, so the window's endpoint is absent from the
mapping's keys. -/
theorem endpoint_counts_prototype_pollution :
    endpoints [sampleEvAt protoToString] = [(protoToString, none)] ∧
    endpoints [sampleEvAt protoToString] ≠ [(protoToString, some 1)] ∧
    endpoints [sampleEvAt protoProto] = [] ∧
    (sampleEvAt protoProto).endpoint ∉ (endpoints [sampleEvAt protoProto]).map Prod.fst := by
  have h1 : endpoints [sampleEvAt protoToString] = [(protoToString, none)] := rfl
  have h2 : endpoints [sampleEvAt protoProto] = [] := rfl
  refine ⟨h1, ?_, h2, ?_⟩
  · rw [h1]
    simp
  · rw [h2]
    simp

/-- C10 (amended): for every window none of whose endpoints is an
inherited `Object.prototype` property name, the endpoint-count mapping
assigns each listed endpoint a numeric count of at least one, each
listed endpoint occurs in the window, the counts sum to exactly the
window length, and every endpoint of the window appears among the
mapping's keys (so no absent endpoint appears, and no present endpoint
is missed).  Windows that do use such names break the original claim,
as the counterexample shows. -/
theorem endpoint_counts_partition (logs : List LogEvent)
    (hsafe : ∀ e ∈ logs, e.endpoint ∉ objectProtoKeys) :
    (∀ q ∈ endpoints logs,
      (∃ c : ℚ, q.2 = some c ∧ 1 ≤ c) ∧ q.1 ∈ logs.map LogEvent.endpoint) ∧
    ((endpoints logs).map fun q => q.2.getD 0).sum = (logs.length : ℚ) ∧
    (∀ e ∈ logs, e.endpoint ∈ (endpoints logs).map Prod.fst) := by
  obtain ⟨hn, h1, hs, hm, hc⟩ := endpoints_inv logs hsafe
  refine ⟨fun q hq => ⟨h1 q hq, hm q hq⟩, ?_, fun e he => hc e.endpoint
    (List.mem_map_of_mem LogEvent.endpoint he)⟩
  rw [hs, List.length_map]

/-- Concrete window matching the specification's worked scenario: two
events on `/a`, one of them an error with high latency. -/
def sampleWindow2 : List LogEvent :=
  [sampleEv 200 50, sampleEv 500 400]

/-- C10 witness: the amended theorem applied to the concrete two-event
window on `/a`, an endpoint that avoids every `Object.prototype`
property name: the window's endpoint appears among the mapping's
keys. -/
theorem endpoint_counts_partition_witness :
    (sampleEv 200 50).endpoint ∈ (endpoints sampleWindow2).map Prod.fst :=
  (endpoint_counts_partition sampleWindow2 (by
      intro e he
      rcases (by simpa [sampleWindow2] using he :
        e = sampleEv 200 50 ∨ e = sampleEv 500 400) with rfl | rfl <;>
        simp [sampleEv, objectProtoKeys])).2.2 (sampleEv 200 50)
    (List.mem_cons_self _ _)

/-- State of the consumer-side stream connection in `LogStream.jsx`:
the window of logged events and the `connected` flag. -/
structure StreamState where
  logs : List LogEvent
  connected : Bool
deriving DecidableEq

/-- Embeds the `onmessage` handler (`LogStream.jsx` lines 61-64):
`const newLog = JSON.parse(event.data); setLogs(prev => [...prev.slice(-99), newLog])`.
`JSON.parse` is a host primitive, so it enters the model as the
parameter `jsonParse`, with `none` standing for a thrown decode
exception: the throw aborts the handler before `setLogs`, leaving the
window unchanged, and a handler exception neither fires `onerror` nor
closes the `EventSource`, so `connected` is untouched as well. -/
def onMessage (jsonParse : String → Option LogEvent)
    (st : StreamState) (data : String) : StreamState :=
  match jsonParse data with
  | some newLog => { st with logs := ingest st.logs newLog }
  | none => st

/-- Processing of a whole sequence of wire messages by the `onmessage`
handler, in arrival order. -/
def processMessages (jsonParse : String → Option LogEvent)
    (st : StreamState) (msgs : List String) : StreamState :=
  msgs.foldl (onMessage jsonParse) st

/-- C3: a malformed (non-decodable) stream message is dropped: the
handler leaves the window unchanged and the connection open, and the
window/aggregate pipeline over any surrounding message sequence behaves
exactly as if the malformed message had not arrived. -/
theorem malformed_message_dropped (jsonParse : String → Option LogEvent)
    (st : StreamState) (bad : String) (h : jsonParse bad = none) :
    onMessage jsonParse st bad = st ∧
    (onMessage jsonParse st bad).connected = st.connected ∧
    ∀ pre post : List String,
      processMessages jsonParse st (pre ++ bad :: post)
        = processMessages jsonParse st (pre ++ post) := by
  have hdrop : ∀ s : StreamState, onMessage jsonParse s bad = s := by
    intro s
    simp [onMessage, h]
  refine ⟨hdrop st, by rw [hdrop st], ?_⟩
  intro pre post
  unfold processMessages
  rw [List.foldl_append, List.foldl_append, List.foldl_cons, hdrop]

/-- Host decoder that rejects every message, used by the concrete
witness. -/
def noParse : String → Option LogEvent :=
  fun _ => none

/-- Concrete malformed wire message. -/
def badChunk : String := "not json"

/-- C3 witness: the malformed-message theorem applied to a concrete
rejecting decoder, a concrete open connection with an empty window, and
a concrete malformed message. -/
theorem malformed_message_dropped_witness :
    onMessage noParse ⟨[], true⟩ badChunk = ⟨[], true⟩ :=
  (malformed_message_dropped noParse ⟨[], true⟩ badChunk rfl).1

/-- State of the express relay endpoint `GET /logs/cloudfront`
(`Apps/express/index.js` lines 156-201): the ids of the open axios
upstream streams and the attached subscriber connections, each paired
with the id of the upstream stream it reads.  `nextId` numbers handler
invocations. -/
structure RelayState where
  nextId : ℕ
  upstreams : List ℕ
  subs : List (ℕ × ℕ)
deriving DecidableEq

/-- Relay state before any subscriber request. -/
def relayInit : RelayState := ⟨0, [], []⟩

/-- Embeds the success path of one `GET /logs/cloudfront` handler
invocation (`index.js` lines 156-201): `await axios({ url: .../logs/cloudfront,
responseType: 'stream' })` opens a fresh upstream stream for this
request, and its `'data'` handler writes only to this request's `res`.
No upstream connection is shared with, or looked up from, any other
subscriber. -/
def handleLogsCloudfront (st : RelayState) : RelayState :=
  { nextId := st.nextId + 1
    upstreams := st.upstreams ++ [st.nextId]
    subs := st.subs ++ [(st.nextId, st.nextId)] }

/-- Relay state after `n` subscribers have attached to the same logical
stream (the Flask `/logs/cloudfront` source). -/
def attachN : ℕ → RelayState
  | 0 => relayInit
  | n + 1 => handleLogsCloudfront (attachN n)

lemma attachN_eq (n : ℕ) :
    attachN n = ⟨n, List.range n, (List.range n).map fun i => (i, i)⟩ := by
  induction n with
  | zero => rfl
  | succ n ih =>
      simp [attachN, handleLogsCloudfront, ih, List.range_succ]

/-- C4 counterexample: two subscribers attached to the same logical
stream give the relay two open upstream connections, not the single
multiplexed one the claim asserts. -/
theorem relay_two_subscribers_two_upstreams :
    (attachN 2).subs.length = 2 ∧
    (attachN 2).upstreams.length = 2 ∧
    ¬ (attachN 2).upstreams.length = 1 := by
  refine ⟨rfl, rfl, ?_⟩
  decide

/-- C4 (amended): the relay opens a separate upstream connection per
subscriber: after `n` attaches to the logical stream there are exactly
`n` upstream connections, pairwise distinct, and each subscription
reads exclusively from its own dedicated upstream. -/
theorem relay_one_upstream_per_subscriber (n : ℕ) :
    (attachN n).upstreams.length = n ∧
    (attachN n).subs.length = n ∧
    (attachN n).subs.map Prod.snd = (attachN n).upstreams ∧
    (attachN n).upstreams.Nodup := by
  rw [attachN_eq]
  refine ⟨by simp, by simp, ?_, by simpa using List.nodup_range n⟩
  rw [List.map_map, show (Prod.snd ∘ fun i : ℕ => (i, i)) = id from rfl, List.map_id]

/-- One event observed on a subscription's upstream axios stream. -/
inductive UpEvent where
  | chunk (c : String)
  | errEv
  | endEv
deriving DecidableEq

/-- Per-subscriber channel state: the chunks written to the
subscriber's response so far, and whether `res.end()` has been
called. -/
structure SubChannel where
  written : List String
  resEnded : Bool
deriving DecidableEq

/-- Channel state of a freshly attached subscriber. -/
def subChannelInit : SubChannel := ⟨[], false⟩

/-- Embeds the upstream stream callbacks registered by the handler
(`index.js` lines 170-191): `'data'` → `res.write(chunk)`; `'error'` →
log, end span, `res.end()`.  The source registers no `'end'` listener,
so a normal upstream end changes nothing on the subscriber side. -/
def onUpEvent (ch : SubChannel) : UpEvent → SubChannel
  | .chunk c => { ch with written := ch.written ++ [c] }
  | .errEv => { ch with resEnded := true }
  | .endEv => ch

/-- Subscriber channel after a sequence of upstream stream events. -/
def runUp (ch : SubChannel) (evs : List UpEvent) : SubChannel :=
  evs.foldl onUpEvent ch

/-- Concrete upstream chunk used by the relay counterexamples. -/
def chunkA : String := "data: x"

/-- C5 counterexample: an upstream trace that delivers one chunk and
then ends normally leaves the subscriber's response un-ended — the
subscriber never observes an end-of-stream signal, contradicting the
claim for the normal-end case. -/
theorem upstream_end_leaves_subscriber_hanging :
    (runUp subChannelInit [UpEvent.chunk chunkA, UpEvent.endEv]).resEnded = false ∧
    (runUp subChannelInit [UpEvent.chunk chunkA, UpEvent.endEv]).written = [chunkA] :=
  ⟨rfl, rfl⟩

/-- C5 (amended): when the upstream stream errors, the subscriber's
channel is cleanly ended (`res.end()`), with exactly the chunks
delivered before the error and none after; when the upstream ends
normally, no further chunks arrive but no end-of-stream signal is
forwarded either — the subscriber's channel state is exactly what it
was before the end event. -/
theorem upstream_error_ends_error_end_does_not (ch : SubChannel)
    (pre : List UpEvent) :
    (runUp ch (pre ++ [UpEvent.errEv])).resEnded = true ∧
    (runUp ch (pre ++ [UpEvent.errEv])).written = (runUp ch pre).written ∧
    runUp ch (pre ++ [UpEvent.endEv]) = runUp ch pre := by
  unfold runUp
  rw [List.foldl_append, List.foldl_append]
  exact ⟨rfl, rfl, rfl⟩

/-- Multi-subscriber view of the relay: the set of live subscriptions,
each keyed by its request id and carrying its own response channel.
Because every subscription owns a private upstream stream, all
per-subscription handlers (`'data'`, `'error'`, `req.on('close')`)
touch exactly one entry. -/
structure RelaySubs where
  subs : List (ℕ × SubChannel)
deriving DecidableEq

/-- Embeds `req.on('close')` (`index.js` lines 176-180): the closing
subscriber's axios upstream stream is destroyed and its subscription's
resources released; no other subscription is read or written.  The same
teardown path is the only one taken on a per-subscriber write failure,
so it also models `SubscriberWriteFailure` handling. -/
def detachSub (st : RelaySubs) (b : ℕ) : RelaySubs :=
  ⟨st.subs.filter fun p => p.1 ≠ b⟩

/-- Embeds one `'data'` callback firing for subscriber `a`
(`index.js` lines 170-172): the chunk is written to that subscriber's
response only. -/
def deliverChunk (st : RelaySubs) (a : ℕ) (c : String) : RelaySubs :=
  ⟨st.subs.map fun p =>
    if p.1 = a then (p.1, onUpEvent p.2 (UpEvent.chunk c)) else p⟩

/-- Subscription entry of subscriber `a`, if attached. -/
def findSub (st : RelaySubs) (a : ℕ) : Option (ℕ × SubChannel) :=
  st.subs.find? fun p => p.1 = a

lemma find?_filter_ne {l : List (ℕ × SubChannel)} {a b : ℕ} (hab : a ≠ b) :
    ((l.filter fun p => p.1 ≠ b).find? fun p => p.1 = a)
      = l.find? fun p => p.1 = a := by
  induction l with
  | nil => rfl
  | cons p rest ih =>
      by_cases hpa : p.1 = a
      · have hpb : ¬ p.1 = b := fun h => hab (hpa ▸ h)
        rw [List.filter_cons_of_pos (by simp [hpb]),
          List.find?_cons_of_pos _ (by simp [hpa]),
          List.find?_cons_of_pos _ (by simp [hpa])]
      · by_cases hpb : p.1 = b
        · rw [List.filter_cons_of_neg (by simp [hpb]),
            List.find?_cons_of_neg _ (by simp [hpa]), ih]
        · rw [List.filter_cons_of_pos (by simp [hpb]),
            List.find?_cons_of_neg _ (by simp [hpa]),
            List.find?_cons_of_neg _ (by simp [hpa]), ih]

lemma find?_deliver (l : List (ℕ × SubChannel)) (a x : ℕ) (c : String) :
    ((l.map fun p => if p.1 = x then (p.1, onUpEvent p.2 (UpEvent.chunk c)) else p).find?
        fun p => p.1 = a)
      = (l.find? fun p => p.1 = a).map
          fun p => if p.1 = x then (p.1, onUpEvent p.2 (UpEvent.chunk c)) else p := by
  induction l with
  | nil => rfl
  | cons p rest ih =>
      have hkey : (if p.1 = x then (p.1, onUpEvent p.2 (UpEvent.chunk c)) else p).1 = p.1 := by
        by_cases hpx : p.1 = x <;> simp [hpx]
      by_cases hpa : p.1 = a
      · rw [List.map_cons,
          List.find?_cons_of_pos _ (by rw [decide_eq_true_eq, hkey]; exact hpa),
          List.find?_cons_of_pos _ (by simp [hpa])]
        rfl
      · rw [List.map_cons, List.find?_cons_of_neg _ (by simp [hkey, hpa]),
          List.find?_cons_of_neg _ (by simp [hpa]), ih]

/-- C8: detaching subscriber `b` (or tearing `b` down after a write
failure) leaves every other attached subscriber `a` untouched: `a`'s
subscription entry is unchanged by the detach, and a chunk subsequently
delivered to `a` produces exactly the channel state it would have
produced had `b` never been detached.  The detach reads and writes no
state beyond `b`'s own entry, so a per-subscriber failure is never a
relay-wide fault. -/
theorem detach_isolates_other_subscribers (st : RelaySubs) (a b : ℕ)
    (c : String) (hab : a ≠ b) :
    findSub (detachSub st b) a = findSub st a ∧
    findSub (deliverChunk (detachSub st b) a c) a = findSub (deliverChunk st a c) a := by
  constructor
  · exact find?_filter_ne hab
  · unfold findSub deliverChunk detachSub
    simp only [find?_deliver]
    rw [find?_filter_ne hab]

/-- Concrete relay with three attached subscribers. -/
def relayABC : RelaySubs :=
  ⟨[(0, subChannelInit), (1, subChannelInit), (2, subChannelInit)]⟩

/-- C8 witness: the isolation theorem applied to the concrete
three-subscriber relay, detaching subscriber `1` while delivering to
subscriber `0`. -/
theorem detach_isolates_other_subscribers_witness :
    findSub (detachSub relayABC 1) 0 = findSub relayABC 0 ∧
    findSub (deliverChunk (detachSub relayABC 1) 0 chunkA) 0
      = findSub (deliverChunk relayABC 0 chunkA) 0 :=
  detach_isolates_other_subscribers relayABC 0 1 chunkA (by decide)
